import Mathlib

/-!
# Verification of the idle-clicker economy engine and bot strategy

Shallow embedding of the game's economy engine (`GameEngine` in
`engine/gameEngine.ts`, `UpgradeManager` in `managers/UpgradeManager.ts`),
the zustand store's `updateCurrency` (`stores/gameStore.ts`), and the bot's
`BotStrategy` (`bot/GameBot.ts`).  `Quantity` is modelled as exact rationals:
the source routes all arithmetic through decimal.js configured at 50-digit
precision, so at the magnitudes the claims concern the arithmetic is exact.
Mutating methods become pure functions returning the new state; fallible
operations return `Bool × GameState` mirroring the source's boolean results.
-/

namespace Game

/-- Model of an idle generator: catalog fields plus the per-save mutable
fields `owned` and `unlocked` (`IdleGenerator` in `types/gameTypes.ts`). -/
structure Generator where
  id : String
  baseProduction : ℚ
  baseCost : ℚ
  costMultiplier : ℚ
  owned : ℕ
  unlocked : Bool
deriving DecidableEq

/-- Effect type tag of an upgrade, mirroring the `effect.type` strings
(`clickMultiplier`, `idleMultiplier`, `special`) plus the targeted-effect
case the bot handles through `effect.target`. -/
inductive EffectType where
  | clickMultiplier
  | idleMultiplier
  | special
  | targeted
deriving DecidableEq

/-- What an upgrade's `effect.apply(gameState)` closure does.  In the catalog
(`data/upgrades.ts`) every apply function either multiplies
`clickMultiplier`, multiplies `idleMultiplier`, adds to `baseClickValue`, or
does nothing; none of them touch currency or purchase counts. -/
inductive EffectApply where
  | multClick (v : ℚ)
  | multIdle (v : ℚ)
  | addBase (v : ℚ)
  | noop
deriving DecidableEq

/-- An upgrade effect: type tag, magnitude, optional target generator id,
and the apply closure. -/
structure UEffect where
  etype : EffectType
  value : ℚ
  target : Option String
  app : EffectApply
deriving DecidableEq

/-- Unlock conditions appearing in the catalog: always true, a
`totalClicks` threshold, a `totalEarned` threshold, or a `views` threshold
(plus `never` for completeness).  They read only scalar fields of the
state. -/
inductive UnlockCond where
  | always
  | never
  | totalClicksAtLeast (n : ℕ)
  | totalEarnedAtLeast (q : ℚ)
  | viewsAtLeast (q : ℚ)
deriving DecidableEq

/-- Model of an upgrade (`Upgrade` in `types/gameTypes.ts`). -/
structure Upgrade where
  id : String
  baseCost : ℚ
  costMultiplier : ℚ
  maxPurchases : ℕ
  currentPurchases : ℕ
  unlocked : Bool
  unlockCondition : UnlockCond
  effect : UEffect
deriving DecidableEq

/-- Model of an automation system: only the mutable `owned` count matters
for the claims (prestige resets it). -/
structure AutomationSys where
  id : String
  owned : ℕ
deriving DecidableEq

/-- The game state fields the verified operations read or write
(`GameState` in `types/gameTypes.ts`). -/
structure GameState where
  currency : ℚ
  views : ℚ
  totalEarned : ℚ
  totalClicks : ℕ
  baseClickValue : ℚ
  clickMultiplier : ℚ
  idleMultiplier : ℚ
  engagement : ℚ
  prestigePoints : ℚ
  totalPrestiges : ℕ
  metaPrestigePoints : ℚ
  totalMetaPrestiges : ℕ
  idleGenerators : List Generator
  upgrades : List Upgrade
  purchasedUpgrades : List String
  automationSystems : List AutomationSys
  unlockedAchievements : List String
deriving DecidableEq

/-! ## Store actions (`stores/gameStore.ts`) -/

/-- Store action `updateCurrency`: adds `amount` to `currency` and adds the
positive part of `amount` to `totalEarned`
(`totalEarned.plus(amount.isPositive() ? amount : ZERO)`). -/
def updateCurrency (amount : ℚ) (s : GameState) : GameState :=
  { s with
    currency := s.currency + amount,
    totalEarned := s.totalEarned + (if 0 < amount then amount else 0) }

/-! ## Economy engine (`engine/gameEngine.ts`) -/

/-- Engine `performClick`: click value is `baseClickValue × clickMultiplier`;
it is credited through the store's `updateCurrency` and the click counter is
incremented. -/
def performClick (s : GameState) : GameState :=
  let clickValue := s.baseClickValue * s.clickMultiplier
  let s1 := updateCurrency clickValue s
  { s1 with totalClicks := s1.totalClicks + 1 }

/-- Engine `getGeneratorCost`: loops `i < amount` accumulating
`baseCost * costMultiplier ^ (owned + i)`.  The engine applies no rounding
here. -/
def getGeneratorCost (g : Generator) (amount : ℕ) : ℚ :=
  ∑ i ∈ Finset.range amount, g.baseCost * g.costMultiplier ^ (g.owned + i)

/-- Engine `canAffordGenerator`: unlocked and `currency ≥ cost`. -/
def canAffordGenerator (g : Generator) (amount : ℕ) (s : GameState) : Bool :=
  g.unlocked && decide (getGeneratorCost g amount ≤ s.currency)

/-- Lookup of a generator by id (`state.idleGenerators.find(g => g.id === generatorId)`). -/
def findGenerator (gid : String) (s : GameState) : Option Generator :=
  s.idleGenerators.find? (fun g => g.id == gid)

/-- Replace the first list entry whose id matches, like mutating the object
returned by `find`. -/
def replaceFirstGenerator (gid : String) (f : Generator → Generator) :
    List Generator → List Generator
  | [] => []
  | g :: rest =>
    if g.id == gid then f g :: rest else g :: replaceFirstGenerator gid f rest

/-- Engine `purchaseGenerator`: unknown id or unaffordable fails with no
mutation; otherwise the quoted cost is deducted through the store's
`updateCurrency (cost.negated())` and `owned` is incremented by `amount`. -/
def purchaseGenerator (gid : String) (amount : ℕ) (s : GameState) :
    Bool × GameState :=
  match findGenerator gid s with
  | none => (false, s)
  | some g =>
    if canAffordGenerator g amount s then
      let cost := getGeneratorCost g amount
      let s1 := updateCurrency (-cost) s
      (true, { s1 with
        idleGenerators :=
          replaceFirstGenerator gid (fun w => { w with owned := w.owned + amount })
            s1.idleGenerators })
    else (false, s)

/-- Engine `canPrestige`: `totalEarned ≥ 1000` (the comment in the source
says "require at least 1000 total currency earned", and the engine's unit
test checks the boundary 500/1500 against this threshold). -/
def canPrestige (s : GameState) : Bool :=
  decide ((1000 : ℚ) ≤ s.totalEarned)

/-- Predicate `k² ≤ m`, the search condition for the floored square root. -/
def sqLE (m k : ℕ) : Prop := k * k ≤ m

instance (m k : ℕ) : Decidable (sqLE m k) :=
  inferInstanceAs (Decidable (k * k ≤ m))

/-- Floor of the square root of a rational, used to embed the decimal.js
computation `x.sqrt().floor()` exactly: the result is the greatest `n` with
`n² ≤ x` (see `sqrtFloor_sq_le` and `lt_sqrtFloor_add_one_sq`). -/
def sqrtFloor (q : ℚ) : ℕ :=
  Nat.findGreatest (sqLE ⌊q⌋.toNat) ⌊q⌋.toNat

/-- Engine `calculatePrestigeGain`:
`totalEarned.dividedBy(1000).sqrt().floor()`, returned as is when positive
and replaced by `ONE` otherwise. -/
def calculatePrestigeGain (s : GameState) : ℚ :=
  let gain := sqrtFloor (s.totalEarned / 1000)
  if 0 < gain then (gain : ℚ) else 1

/-- Engine `performPrestige`: no-op unless `canPrestige()`; otherwise the
gain is computed first, base progress is reset (currency, clicks,
totalEarned, click values, generator `owned`, idle multiplier, upgrade
`currentPurchases`, purchased set, automation `owned`), prestige progress is
advanced, and all remaining fields are carried over by the spread. -/
def performPrestige (s : GameState) : GameState :=
  if canPrestige s then
    let prestigeGain := calculatePrestigeGain s
    { s with
      currency := 0,
      totalClicks := 0,
      totalEarned := 0,
      baseClickValue := 1,
      clickMultiplier := 1,
      idleGenerators := s.idleGenerators.map (fun g => { g with owned := 0 }),
      idleMultiplier := 1,
      upgrades := s.upgrades.map (fun u => { u with currentPurchases := 0 }),
      purchasedUpgrades := [],
      automationSystems := s.automationSystems.map (fun a => { a with owned := 0 }),
      prestigePoints := s.prestigePoints + prestigeGain,
      totalPrestiges := s.totalPrestiges + 1 }
  else s

/-! ## Upgrade manager (`managers/UpgradeManager.ts`) -/

/-- Evaluation of an unlock-condition closure against the game state. -/
def UnlockCond.eval (c : UnlockCond) (s : GameState) : Bool :=
  match c with
  | .always => true
  | .never => false
  | .totalClicksAtLeast n => decide (n ≤ s.totalClicks)
  | .totalEarnedAtLeast q => decide (q ≤ s.totalEarned)
  | .viewsAtLeast q => decide (q ≤ s.views)

/-- Evaluation of an upgrade effect's apply closure. -/
def applyEffect (e : EffectApply) (s : GameState) : GameState :=
  match e with
  | .multClick v => { s with clickMultiplier := s.clickMultiplier * v }
  | .multIdle v => { s with idleMultiplier := s.idleMultiplier * v }
  | .addBase v => { s with baseClickValue := s.baseClickValue + v }
  | .noop => s

/-- Manager `isUpgradeUnlocked`: the `unlocked` flag, or else the unlock
condition evaluated against the current state. -/
def isUpgradeUnlocked (u : Upgrade) (s : GameState) : Bool :=
  u.unlocked || u.unlockCondition.eval s

/-- Manager `getUpgradeCost`: `baseCost` when nothing is purchased yet,
otherwise `baseCost * costMultiplier ^ currentPurchases`; the result is
rounded up to the nearest integer (`cost.ceil()`). -/
def getUpgradeCost (u : Upgrade) : ℚ :=
  ((⌈if u.currentPurchases = 0 then u.baseCost
     else u.baseCost * u.costMultiplier ^ u.currentPurchases⌉ : ℤ) : ℚ)

/-- Manager `canAffordUpgrade`: not maxed, unlocked, and `currency ≥ cost`. -/
def canAffordUpgrade (u : Upgrade) (s : GameState) : Bool :=
  if u.maxPurchases ≤ u.currentPurchases then false
  else if !(isUpgradeUnlocked u s) then false
  else decide (getUpgradeCost u ≤ s.currency)

/-- Lookup of an upgrade by id (`gameState.upgrades.find(u => u.id === upgradeId)`). -/
def findUpgrade (uid : String) (s : GameState) : Option Upgrade :=
  s.upgrades.find? (fun u => u.id == uid)

/-- Replace the first upgrade whose id matches, like mutating the object
returned by `find`. -/
def replaceFirstUpgrade (uid : String) (f : Upgrade → Upgrade) :
    List Upgrade → List Upgrade
  | [] => []
  | u :: rest =>
    if u.id == uid then f u :: rest else u :: replaceFirstUpgrade uid f rest

/-- Addition to the `purchasedUpgrades` set (`Set.add`). -/
def insertStr (x : String) (l : List String) : List String :=
  if x ∈ l then l else x :: l

/-- Manager `updateUpgradeUnlocks`: every still-locked upgrade's flag is set
to its unlock condition's current value (never cleared once set, because the
loop skips upgrades with `unlocked = true`). -/
def updateUpgradeUnlocks (s : GameState) : GameState :=
  { s with
    upgrades := s.upgrades.map (fun u =>
      if u.unlocked then u else { u with unlocked := u.unlockCondition.eval s }) }

/-- Body shared by `purchaseUpgrade` and the loop of `purchaseMaxUpgrades`:
deduct the quoted cost, run the effect's apply closure once, increment
`currentPurchases`, and record one-time upgrades in `purchasedUpgrades`. -/
def purchaseStepCore (uid : String) (u : Upgrade) (s : GameState) : GameState :=
  let cost := getUpgradeCost u
  let s1 := { s with currency := s.currency - cost }
  let s2 := applyEffect u.effect.app s1
  let s3 := { s2 with
    upgrades := replaceFirstUpgrade uid
      (fun w => { w with currentPurchases := w.currentPurchases + 1 }) s2.upgrades }
  if u.maxPurchases = 1 then
    { s3 with purchasedUpgrades := insertStr uid s3.purchasedUpgrades }
  else s3

/-- Manager `purchaseUpgrade`: unknown id or `canAffordUpgrade` failure
returns `false` with no mutation; on success the step body runs, the
upgrade's `unlocked` flag is set, and unlock conditions of the other
upgrades are refreshed. -/
def purchaseUpgrade (uid : String) (s : GameState) : Bool × GameState :=
  match findUpgrade uid s with
  | none => (false, s)
  | some u =>
    if canAffordUpgrade u s then
      let s4 := purchaseStepCore uid u s
      let s5 := { s4 with
        upgrades := replaceFirstUpgrade uid (fun w => { w with unlocked := true })
          s4.upgrades }
      (true, updateUpgradeUnlocks s5)
    else (false, s)

/-- Simulated cost of the next unit at `currentPurchases = p`, as computed
inside `getMaxAffordableUpgrades`:
`baseCost * costMultiplier ^ p`, rounded up. -/
def stepCost (b m : ℚ) (p : ℕ) : ℚ :=
  ((⌈b * m ^ p⌉ : ℤ) : ℚ)

/-- Loop of `getMaxAffordableUpgrades`: starting from exposure `p` with
`rem` purchases remaining and `running` already committed, count how many
further units fit under `currency`. -/
def maxAffordableAux (b m currency : ℚ) : ℕ → ℕ → ℚ → ℕ
  | _, 0, _ => 0
  | p, rem + 1, running =>
    let c := stepCost b m p
    if running + c ≤ currency then
      1 + maxAffordableAux b m currency (p + 1) rem (running + c)
    else 0

/-- Manager `getMaxAffordableUpgrades`: 0 when locked; otherwise simulate
purchases, accumulating ceiled per-unit costs while the running total stays
within `currency`, capped at the remaining purchases. -/
def getMaxAffordableUpgrades (u : Upgrade) (s : GameState) : ℕ :=
  if !(isUpgradeUnlocked u s) then 0
  else
    maxAffordableAux u.baseCost u.costMultiplier s.currency
      u.currentPurchases (u.maxPurchases - u.currentPurchases) 0

/-- The purchase loop of `purchaseMaxUpgrades`: up to `n` iterations, each
rechecking `currency ≥ cost` before running the step body, stopping at the
first failing check; returns the number of purchases made. -/
def purchaseMaxLoop (uid : String) : ℕ → GameState → ℕ × GameState
  | 0, s => (0, s)
  | k + 1, s =>
    match findUpgrade uid s with
    | none => (0, s)
    | some u =>
      if decide (getUpgradeCost u ≤ s.currency) then
        let s1 := purchaseStepCore uid u s
        let r := purchaseMaxLoop uid k s1
        (r.1 + 1, r.2)
      else (0, s)

/-- Manager `purchaseMaxUpgrades`: unknown id or `maxAffordable = 0`
returns 0 with no mutation; otherwise the loop runs `maxAffordable` times,
then the upgrade's `unlocked` flag is set and unlock conditions are
refreshed once. -/
def purchaseMaxUpgrades (uid : String) (s : GameState) : ℕ × GameState :=
  match findUpgrade uid s with
  | none => (0, s)
  | some u =>
    let maxAffordable := getMaxAffordableUpgrades u s
    if maxAffordable = 0 then (0, s)
    else
      let r := purchaseMaxLoop uid maxAffordable s
      let s2 := { r.2 with
        upgrades := replaceFirstUpgrade uid (fun w => { w with unlocked := true })
          r.2.upgrades }
      (r.1, updateUpgradeUnlocks s2)

/-! ## Bot strategy (`bot/GameBot.ts`, class `BotStrategy`) -/

/-- Kind of a `PurchaseDecision`: the source's `type` field is
`'generator' | 'upgrade' | 'none'`; `skip` stands for `'none'`. -/
inductive DKind where
  | generator
  | upgrade
  | skip
deriving DecidableEq

/-- A `PurchaseDecision` with the fields the verified logic reads. -/
structure Decision where
  kind : DKind
  id : String := ""
  amount : ℕ := 1
  cost : ℚ := 0
  eff : ℚ := 0
deriving DecidableEq

/-- Strategy `getClicksPerSecond`: the observed rate when positive, else the
conservative estimate 1. -/
def clicksPerSecondOf (rate : ℚ) : ℚ :=
  if 0 < rate then rate else 1

/-- Strategy `calculateGeneratorCost`:
`baseCost * costMultiplier ^ owned`, rounded up (unlike the engine's
`getGeneratorCost`, the bot ceils). -/
def calculateGeneratorCost (g : Generator) : ℚ :=
  ((⌈g.baseCost * g.costMultiplier ^ g.owned⌉ : ℤ) : ℚ)

/-- Strategy `calculateUpgradeCost`:
`baseCost * costMultiplier ^ currentPurchases`, rounded up. -/
def calculateUpgradeCost (u : Upgrade) : ℚ :=
  ((⌈u.baseCost * u.costMultiplier ^ u.currentPurchases⌉ : ℤ) : ℚ)

/-- Strategy `estimateIdleProduction`: sum of `baseProduction * owned` over
owned generators, times the idle multiplier. -/
def estimateIdleProduction (s : GameState) : ℚ :=
  (s.idleGenerators.foldr
    (fun g acc => if 0 < g.owned then g.baseProduction * (g.owned : ℚ) + acc else acc)
    0) * s.idleMultiplier

/-- Strategy `evaluateGenerator`: efficiency is `1 / paybackTime` with
`paybackTime = cost / productionGain` and
`productionGain = baseProduction * idleMultiplier`; the decision is the
affordable `generator` kind when `currency ≥ cost` and the `none` kind
otherwise (both carrying the efficiency). -/
def evaluateGenerator (g : Generator) (s : GameState) : Decision :=
  let cost := calculateGeneratorCost g
  let productionGain := g.baseProduction * s.idleMultiplier
  let paybackTime := cost / productionGain
  let eff := 1 / paybackTime
  if cost ≤ s.currency then
    { kind := .generator, id := g.id, amount := 1, cost := cost, eff := eff }
  else
    { kind := .skip, id := g.id, cost := cost, eff := eff }

/-- Strategy `evaluateUpgrade`: the per-second value estimate dispatches on
the effect type (click multiplier, idle multiplier, the two special-cased
upgrade ids, or a targeted generator boost); efficiency is
`valueEstimate / cost`, and affordability picks between the `upgrade` and
`none` kinds. -/
def evaluateUpgrade (rate : ℚ) (u : Upgrade) (s : GameState) : Decision :=
  let cost := calculateUpgradeCost u
  let cps := clicksPerSecondOf rate
  let valueEstimate : ℚ :=
    match u.effect.etype with
    | .clickMultiplier =>
      (s.baseClickValue * s.clickMultiplier * (u.effect.value - 1)) * cps
    | .idleMultiplier => estimateIdleProduction s * u.effect.value
    | .special =>
      if u.id == "base-value-1" then
        (1 * s.clickMultiplier) * cps + estimateIdleProduction s * (1 / 10)
      else if u.id == "click-power-3" then
        (s.baseClickValue * s.clickMultiplier * (5 - 1) * cps * 10) / 60
      else 0
    | .targeted =>
      match u.effect.target with
      | none => 0
      | some tid =>
        match s.idleGenerators.find? (fun g => g.id == tid) with
        | some tg =>
          if 0 < tg.owned then tg.baseProduction * (tg.owned : ℚ) * u.effect.value
          else 0
        | none => 0
  let eff := valueEstimate / cost
  if cost ≤ s.currency then
    { kind := .upgrade, id := u.id, amount := 1, cost := cost, eff := eff }
  else
    { kind := .skip, id := u.id, cost := cost, eff := eff }

/-- The decision list built at the top of `decideNextPurchase`: unlocked
generators, then unlocked un-maxed upgrades, each evaluated and kept only
when its efficiency is positive. -/
def collectDecisions (rate : ℚ) (s : GameState) : List Decision :=
  ((s.idleGenerators.filter (fun g => g.unlocked)).map
      (fun g => evaluateGenerator g s)
    ++ (s.upgrades.filter
        (fun u => u.unlocked && decide (u.currentPurchases < u.maxPurchases))).map
      (fun u => evaluateUpgrade rate u s)).filter
    (fun d => decide (0 < d.eff))

/-- Stable insertion into a list sorted by descending efficiency: the new
element goes after every element of greater or equal efficiency, which is
what a stable descending comparator sort produces. -/
def insertDesc (d : Decision) : List Decision → List Decision
  | [] => [d]
  | e :: rest =>
    if e.eff ≤ d.eff then d :: e :: rest else e :: insertDesc d rest

/-- Stable sort by descending efficiency
(`decisions.sort((a, b) => b.efficiency - a.efficiency)`). -/
def sortDesc : List Decision → List Decision
  | [] => []
  | d :: rest => insertDesc d (sortDesc rest)

/-- Strategy `decideNextPurchase`: sort the collected decisions by
descending efficiency and filter the affordable ones; when both lists are
nonempty return the best option if it is affordable, else the best
affordable option if its efficiency reaches half of the best option's
efficiency, else the saving-up `none` decision; otherwise fall back to the
best affordable option or `none`. -/
def decideNextPurchase (rate : ℚ) (s : GameState) : Decision :=
  let sorted := sortDesc (collectDecisions rate s)
  let affordable := sorted.filter (fun d => !(d.kind == DKind.skip))
  match sorted, affordable with
  | best :: _, bestAff :: _ =>
    if !(best.kind == DKind.skip) then best
    else if best.eff * (1 / 2) ≤ bestAff.eff then bestAff
    else { kind := .skip }
  | _, _ =>
    match affordable with
    | a :: _ => a
    | [] => { kind := .skip }

/-- Largest efficiency occurring in a decision list (0 for the empty list;
every collected decision has positive efficiency). -/
def bestEff (l : List Decision) : ℚ :=
  l.foldr (fun d acc => max d.eff acc) 0

/-- The affordable sublist: decisions whose kind is not the `none` kind. -/
def affordables (l : List Decision) : List Decision :=
  l.filter (fun d => !(d.kind == DKind.skip))

/-! ## Derived notions used by the statements -/

/-- Sum of the simulated per-unit ceiled costs of `n` successive purchases
starting at exposure `p` — the running total `getMaxAffordableUpgrades`
accumulates. -/
def costSum (b m : ℚ) (p n : ℕ) : ℚ :=
  ∑ i ∈ Finset.range n, stepCost b m (p + i)

/-- Calling the single-unit `purchaseUpgrade` operation `n` times in
succession. -/
def iteratePurchase (uid : String) : ℕ → GameState → GameState
  | 0, s => s
  | n + 1, s => iteratePurchase uid n (purchaseUpgrade uid s).2

/-- The max-affordable count for an id (0 for an unknown id). -/
def maxAffordableCount (uid : String) (s : GameState) : ℕ :=
  match findUpgrade uid s with
  | none => 0
  | some u => getMaxAffordableUpgrades u s

/-! ## Concrete states and entities used in counterexamples and witnesses -/

/-- Fresh-start game state. -/
def baseState : GameState :=
  { currency := 0, views := 0, totalEarned := 0, totalClicks := 0,
    baseClickValue := 1, clickMultiplier := 1, idleMultiplier := 1, engagement := 1,
    prestigePoints := 0, totalPrestiges := 0, metaPrestigePoints := 0,
    totalMetaPrestiges := 0, idleGenerators := [], upgrades := [],
    purchasedUpgrades := [], automationSystems := [], unlockedAchievements := [] }

/-- The generator of the engine's own unit test: `baseCost = 100`,
`costMultiplier = 1.15`, `owned = 2`. -/
def gen115 : Generator :=
  { id := "gen1", baseProduction := 10, baseCost := 100, costMultiplier := 23 / 20,
    owned := 2, unlocked := true }

/-- A state whose lifetime earnings sit exactly at the engine's prestige
threshold. -/
def prestige1000State : GameState :=
  { baseState with totalEarned := 1000, currency := 250, prestigePoints := 3 }

/-- A state with `totalEarned = 4000` (prestige gain 2 by the engine's
formula). -/
def prestige4000State : GameState :=
  { baseState with totalEarned := 4000 }

/-- An upgrade whose ceiled cost plateaus: `baseCost = 1`,
`costMultiplier = 1.15` give `⌈1.15⌉ = ⌈1.3225⌉ = 2`. -/
def cexUpgrade : Upgrade :=
  { id := "cex", baseCost := 1, costMultiplier := 23 / 20, maxPurchases := 10,
    currentPurchases := 0, unlocked := true, unlockCondition := .always,
    effect := { etype := .clickMultiplier, value := 2, target := none,
                app := .multClick 2 } }

/-- An affordable doubling upgrade used by witnesses. -/
def wUpgrade : Upgrade :=
  { id := "u1", baseCost := 5, costMultiplier := 3 / 2, maxPurchases := 10,
    currentPurchases := 1, unlocked := true, unlockCondition := .always,
    effect := { etype := .clickMultiplier, value := 2, target := none,
                app := .multClick 2 } }

/-- A state holding `wUpgrade` with enough currency for several purchases. -/
def wState : GameState :=
  { baseState with currency := 50, upgrades := [wUpgrade] }

/-- Two-generator state for the bot-decision witnesses: option `A` has
efficiency `1/10` but costs 100, option `B` has efficiency `1/20` (exactly
half) and costs 20, and the state holds 50 currency. -/
def botState : GameState :=
  { baseState with
    currency := 50,
    idleGenerators := [
      { id := "A", baseProduction := 10, baseCost := 100, costMultiplier := 2,
        owned := 0, unlocked := true },
      { id := "B", baseProduction := 1, baseCost := 20, costMultiplier := 2,
        owned := 0, unlocked := true }] }

/-! ## Preservation and lookup lemmas -/

theorem applyEffect_currency (e : EffectApply) (s : GameState) :
    (applyEffect e s).currency = s.currency := by
  cases e <;> rfl

theorem applyEffect_totalEarned (e : EffectApply) (s : GameState) :
    (applyEffect e s).totalEarned = s.totalEarned := by
  cases e <;> rfl

theorem applyEffect_upgrades (e : EffectApply) (s : GameState) :
    (applyEffect e s).upgrades = s.upgrades := by
  cases e <;> rfl

theorem applyEffect_currency_irrel (e : EffectApply) (s : GameState) (c : ℚ) :
    applyEffect e { s with currency := c } = { applyEffect e s with currency := c } := by
  cases e <;> rfl

theorem updateUpgradeUnlocks_currency (s : GameState) :
    (updateUpgradeUnlocks s).currency = s.currency := rfl

theorem updateUpgradeUnlocks_totalEarned (s : GameState) :
    (updateUpgradeUnlocks s).totalEarned = s.totalEarned := rfl

theorem purchaseStepCore_currency (uid : String) (u : Upgrade) (s : GameState) :
    (purchaseStepCore uid u s).currency = s.currency - getUpgradeCost u := by
  unfold purchaseStepCore
  split <;> simp [applyEffect_currency]

theorem purchaseStepCore_totalEarned (uid : String) (u : Upgrade) (s : GameState) :
    (purchaseStepCore uid u s).totalEarned = s.totalEarned := by
  unfold purchaseStepCore
  split <;> simp [applyEffect_totalEarned]

theorem purchaseStepCore_upgrades (uid : String) (u : Upgrade) (s : GameState) :
    (purchaseStepCore uid u s).upgrades
      = replaceFirstUpgrade uid
          (fun w => { w with currentPurchases := w.currentPurchases + 1 }) s.upgrades := by
  unfold purchaseStepCore
  split <;> simp [applyEffect_upgrades]

theorem find?_replaceFirstUpgrade (uid : String) (f : Upgrade → Upgrade)
    (hf : ∀ u, (f u).id = u.id) :
    ∀ l : List Upgrade,
      (replaceFirstUpgrade uid f l).find? (fun u => u.id == uid)
        = (l.find? (fun u => u.id == uid)).map f := by
  intro l
  induction l with
  | nil => rfl
  | cons u rest ih =>
    by_cases h : u.id = uid
    · have hb : (u.id == uid) = true := by simp [h]
      have hfb : ((f u).id == uid) = true := by simp [hf, h]
      simp [replaceFirstUpgrade, List.find?_cons, hb, hfb]
    · have hb : (u.id == uid) = false := by simp [h]
      have hfb : ((f u).id == uid) = false := by simp [hf, h]
      simp [replaceFirstUpgrade, List.find?_cons, hb, hfb, ih]

theorem find?_mapUpgrades (f : Upgrade → Upgrade) (hf : ∀ u, (f u).id = u.id)
    (uid : String) :
    ∀ l : List Upgrade,
      (l.map f).find? (fun u => u.id == uid)
        = (l.find? (fun u => u.id == uid)).map f := by
  intro l
  induction l with
  | nil => rfl
  | cons u rest ih =>
    by_cases h : u.id = uid
    · have hb : (u.id == uid) = true := by simp [h]
      have hfb : ((f u).id == uid) = true := by simp [hf, h]
      simp [List.find?_cons, hb, hfb]
    · have hb : (u.id == uid) = false := by simp [h]
      have hfb : ((f u).id == uid) = false := by simp [hf, h]
      simp [List.find?_cons, hb, hfb, ih]

theorem findUpgrade_updateUpgradeUnlocks (uid : String) (s : GameState) :
    findUpgrade uid (updateUpgradeUnlocks s)
      = (findUpgrade uid s).map (fun u =>
          if u.unlocked then u
          else { u with unlocked := u.unlockCondition.eval s }) := by
  unfold findUpgrade updateUpgradeUnlocks
  exact find?_mapUpgrades _ (fun u => by split <;> rfl) uid s.upgrades

theorem findUpgrade_purchaseStepCore (uid : String) (u : Upgrade) (s : GameState) :
    findUpgrade uid (purchaseStepCore uid u s)
      = (findUpgrade uid s).map
          (fun w => { w with currentPurchases := w.currentPurchases + 1 }) := by
  unfold findUpgrade
  rw [purchaseStepCore_upgrades]
  exact find?_replaceFirstUpgrade uid
    (fun w => { w with currentPurchases := w.currentPurchases + 1 })
    (fun _ => rfl) s.upgrades

theorem getUpgradeCost_eq (u : Upgrade) :
    getUpgradeCost u = stepCost u.baseCost u.costMultiplier u.currentPurchases := by
  unfold getUpgradeCost stepCost
  split
  · rename_i h; rw [h, pow_zero, mul_one]
  · rfl

theorem updateCurrency_totalEarned_mono (a : ℚ) (s : GameState) :
    s.totalEarned ≤ (updateCurrency a s).totalEarned := by
  by_cases h : 0 < a
  · simp only [updateCurrency]
    rw [if_pos h]
    linarith
  · simp [updateCurrency, h]

theorem purchaseUpgrade_totalEarned (uid : String) (s : GameState) :
    (purchaseUpgrade uid s).2.totalEarned = s.totalEarned := by
  cases hf : findUpgrade uid s with
  | none => simp [purchaseUpgrade, hf]
  | some u =>
    by_cases hc : canAffordUpgrade u s = true
    · simp [purchaseUpgrade, hf, hc, updateUpgradeUnlocks_totalEarned,
        purchaseStepCore_totalEarned]
    · simp [purchaseUpgrade, hf, hc]

theorem purchaseMaxLoop_totalEarned (uid : String) :
    ∀ (n : ℕ) (s : GameState),
      (purchaseMaxLoop uid n s).2.totalEarned = s.totalEarned := by
  intro n
  induction n with
  | zero => intro s; rfl
  | succ k ih =>
    intro s
    cases hf : findUpgrade uid s with
    | none => simp [purchaseMaxLoop, hf]
    | some u =>
      by_cases hc : getUpgradeCost u ≤ s.currency
      · simp [purchaseMaxLoop, hf, hc, ih, purchaseStepCore_totalEarned]
      · simp [purchaseMaxLoop, hf, hc]

theorem purchaseMaxUpgrades_totalEarned (uid : String) (s : GameState) :
    (purchaseMaxUpgrades uid s).2.totalEarned = s.totalEarned := by
  cases hf : findUpgrade uid s with
  | none => simp [purchaseMaxUpgrades, hf]
  | some u =>
    by_cases hz : getMaxAffordableUpgrades u s = 0
    · simp [purchaseMaxUpgrades, hf, hz]
    · simp [purchaseMaxUpgrades, hf, hz, updateUpgradeUnlocks_totalEarned,
        purchaseMaxLoop_totalEarned]

theorem cast_floor_toNat_eq (q : ℚ) (hq : 0 ≤ q) :
    ((⌊q⌋.toNat : ℕ) : ℚ) = ((⌊q⌋ : ℤ) : ℚ) := by
  have h0 : (0 : ℤ) ≤ ⌊q⌋ := Int.floor_nonneg.mpr hq
  rw [show ((⌊q⌋.toNat : ℕ) : ℚ) = (((⌊q⌋.toNat : ℕ) : ℤ) : ℚ) by push_cast; ring]
  rw [Int.toNat_of_nonneg h0]

theorem sqrtFloor_sq_le (q : ℚ) (hq : 0 ≤ q) : ((sqrtFloor q : ℚ)) ^ 2 ≤ q := by
  unfold sqrtFloor
  set m := ⌊q⌋.toNat with hm
  set n := Nat.findGreatest (sqLE m) m with hn
  have hP : n * n ≤ m := by
    have h : sqLE m n := by
      rw [hn]
      exact Nat.findGreatest_spec (Nat.zero_le m) (show sqLE m 0 by unfold sqLE; omega)
    exact h
  have h1 : ((m : ℕ) : ℚ) ≤ q := by
    rw [hm, cast_floor_toNat_eq q hq]
    exact Int.floor_le q
  calc ((n : ℚ)) ^ 2 = ((n * n : ℕ) : ℚ) := by push_cast; ring
    _ ≤ ((m : ℕ) : ℚ) := by exact_mod_cast hP
    _ ≤ q := h1

theorem lt_sqrtFloor_add_one_sq (q : ℚ) (hq : 0 ≤ q) :
    q < ((sqrtFloor q : ℚ) + 1) ^ 2 := by
  unfold sqrtFloor
  set m := ⌊q⌋.toNat with hm
  set n := Nat.findGreatest (sqLE m) m with hn
  have key : m < (n + 1) * (n + 1) := by
    by_contra hle
    push_neg at hle
    have h1 : n + 1 ≤ m := le_trans (Nat.le_mul_of_pos_left _ (Nat.succ_pos n)) hle
    have hk : Nat.findGreatest (sqLE m) m < n + 1 := by
      rw [← hn]; omega
    have h2 : ¬ sqLE m (n + 1) := Nat.findGreatest_is_greatest hk h1
    exact h2 hle
  have hq1 : q < ((m : ℕ) : ℚ) + 1 := by
    have hf := cast_floor_toNat_eq q hq
    rw [hm, hf]
    exact Int.lt_floor_add_one q
  have h2 : ((m : ℕ) : ℚ) + 1 ≤ ((n : ℚ) + 1) ^ 2 := by
    have : (m : ℕ) + 1 ≤ (n + 1) * (n + 1) := key
    calc ((m : ℕ) : ℚ) + 1 = (((m + 1 : ℕ)) : ℚ) := by push_cast; ring
      _ ≤ (((n + 1) * (n + 1) : ℕ) : ℚ) := by exact_mod_cast this
      _ = ((n : ℚ) + 1) ^ 2 := by push_cast; ring
  linarith

/-! ## Claim theorems -/

section ClaimDecidable

attribute [local semireducible] Rat.add Rat.mul Rat.inv Rat.sub

/-- Claim C2 (code bug): the engine's `getGeneratorCost` at
`baseCost = 100`, `costMultiplier = 1.15`, `owned = 2`, `amount = 1` returns
the unrounded `132.25`, not `ceil(baseCost × costMultiplier^owned) = 133`;
the bot's `calculateGeneratorCost` does apply the ceiling, and the engine's
own unit test expects the ceiled value. -/
theorem getGeneratorCost_unrounded :
    getGeneratorCost gen115 1 = 529 / 4
    ∧ getGeneratorCost gen115 1 ≠ ((⌈getGeneratorCost gen115 1⌉ : ℤ) : ℚ)
    ∧ calculateGeneratorCost gen115 = 133 :=
  ⟨by decide, by decide, by decide⟩

/-- Claim C4 (counterexample): at `totalEarned = 1000` the engine's
`canPrestige()` already returns true although `1000 < 50000`, refuting the
claim that the production threshold is 50000. -/
theorem canPrestige_below_50000 :
    canPrestige prestige1000State = true
    ∧ prestige1000State.totalEarned < 50000 :=
  ⟨by decide, by decide⟩

/-- Claim C3 (counterexample): the lifetime total `totalEarned` is reset to
zero by `performPrestige`, so it strictly decreases across a prestige taken
at `totalEarned = 1000`. -/
theorem totalEarned_decreases_across_prestige :
    (performPrestige prestige1000State).totalEarned
      < prestige1000State.totalEarned := by
  decide

/-- Claim C6 (counterexample): at `totalEarned = 0` the engine's
`calculatePrestigeGain()` returns 1, while the claimed formula
`floor((totalEarned / threshold) ^ exponent)` is 0 (the floored square root
of 0 is 0). -/
theorem prestigeGain_one_at_zero_earned :
    calculatePrestigeGain baseState = 1
    ∧ baseState.totalEarned = 0
    ∧ sqrtFloor (baseState.totalEarned / 1000) = 0 :=
  ⟨by decide, by decide, by decide⟩

/-- Claim C7 (counterexample): the manager's `getUpgradeCost` rounds up,
so with `baseCost = 1` and `costMultiplier = 1.15 > 1` the cost after 2
purchases equals the cost after 1 purchase (both `⌈1.15⌉ = ⌈1.3225⌉ = 2`),
refuting strict monotonicity. -/
theorem upgradeCost_plateau :
    (1 : ℚ) < cexUpgrade.costMultiplier
    ∧ getUpgradeCost { cexUpgrade with currentPurchases := 1 }
        = getUpgradeCost { cexUpgrade with currentPurchases := 2 }
    ∧ getUpgradeCost { cexUpgrade with currentPurchases := 1 } = 2 :=
  ⟨by decide, by decide, by decide⟩

end ClaimDecidable

/-- Claim C4 (amended): the engine's `canPrestige()` returns true exactly
when `totalEarned ≥ 1000`, the engine's threshold; the 50000 constant
appears only in the `PrestigeButton` display and the bot's `shouldPrestige`
heuristic. -/
theorem canPrestige_iff (s : GameState) :
    canPrestige s = true ↔ (1000 : ℚ) ≤ s.totalEarned := by
  simp [canPrestige]

/-- Claim C3 (amended): `totalEarned` never decreases under click
processing, currency updates, or any purchase operation; `performPrestige`,
however, resets it to zero whenever `canPrestige()` holds (and leaves the
state untouched otherwise). -/
theorem totalEarned_monotone_except_prestige (s : GameState) (a : ℚ)
    (gid uid : String) (amt : ℕ) :
    s.totalEarned ≤ (updateCurrency a s).totalEarned
    ∧ s.totalEarned ≤ (performClick s).totalEarned
    ∧ s.totalEarned ≤ (purchaseGenerator gid amt s).2.totalEarned
    ∧ s.totalEarned ≤ (purchaseUpgrade uid s).2.totalEarned
    ∧ s.totalEarned ≤ (purchaseMaxUpgrades uid s).2.totalEarned
    ∧ (performPrestige s).totalEarned
        = (if canPrestige s = true then 0 else s.totalEarned) := by
  refine ⟨updateCurrency_totalEarned_mono a s, ?_, ?_, ?_, ?_, ?_⟩
  · exact updateCurrency_totalEarned_mono _ s
  · cases hf : findGenerator gid s with
    | none => simp [purchaseGenerator, hf]
    | some g =>
      by_cases hc : canAffordGenerator g amt s = true
      · simpa [purchaseGenerator, hf, hc] using
          updateCurrency_totalEarned_mono (-(getGeneratorCost g amt)) s
      · simp [purchaseGenerator, hf, hc]
  · rw [purchaseUpgrade_totalEarned]
  · rw [purchaseMaxUpgrades_totalEarned]
  · unfold performPrestige
    by_cases h : canPrestige s = true <;> simp [h]

/-- Claim C6 (amended): `calculatePrestigeGain()` equals
`max(floor(sqrt(totalEarned / 1000)), 1)` — the claimed
`floor((totalEarned / threshold) ^ exponent)` with threshold 1000 and
exponent 1/2, except that the result is clamped up to 1 even when the floor
is 0; the two inequalities pin `sqrtFloor` as the genuine floored square
root. -/
theorem calculatePrestigeGain_spec (s : GameState) (h : 0 ≤ s.totalEarned) :
    calculatePrestigeGain s = max ((sqrtFloor (s.totalEarned / 1000) : ℕ) : ℚ) 1
    ∧ ((sqrtFloor (s.totalEarned / 1000) : ℚ)) ^ 2 ≤ s.totalEarned / 1000
    ∧ s.totalEarned / 1000 < ((sqrtFloor (s.totalEarned / 1000) : ℚ) + 1) ^ 2 := by
  have hq : (0 : ℚ) ≤ s.totalEarned / 1000 := by positivity
  refine ⟨?_, sqrtFloor_sq_le _ hq, lt_sqrtFloor_add_one_sq _ hq⟩
  unfold calculatePrestigeGain
  by_cases hg : 0 < sqrtFloor (s.totalEarned / 1000)
  · rw [if_pos hg, eq_comm]
    apply max_eq_left
    exact_mod_cast hg
  · rw [if_neg hg, eq_comm]
    have : sqrtFloor (s.totalEarned / 1000) = 0 := by omega
    rw [this]
    simp

section ClaimDecidable2

attribute [local semireducible] Rat.add Rat.mul Rat.inv Rat.sub

/-- Witness for C6: at `totalEarned = 4000` the hypothesis holds and the
gain is the clamped floored square root. -/
theorem calculatePrestigeGain_spec_witness :
    (0 : ℚ) ≤ prestige4000State.totalEarned
    ∧ calculatePrestigeGain prestige4000State
        = max ((sqrtFloor (prestige4000State.totalEarned / 1000) : ℕ) : ℚ) 1 :=
  ⟨by decide, (calculatePrestigeGain_spec prestige4000State (by decide)).1⟩

end ClaimDecidable2

/-- Claim C7 (amended): for `costMultiplier > 1` and positive `baseCost`
the engine's generator cost (no rounding) is strictly increasing in the
owned count; the manager's ceiled upgrade cost is non-decreasing, and
strictly increasing whenever the raw step increment
`baseCost·m^n·(m − 1)` is at least 1 (true for every catalog upgrade). -/
theorem cost_monotone (g : Generator) (u : Upgrade) (n : ℕ)
    (hgb : 0 < g.baseCost) (hgm : 1 < g.costMultiplier)
    (hub : 0 ≤ u.baseCost) (hum : 1 ≤ u.costMultiplier) :
    getGeneratorCost { g with owned := n } 1
      < getGeneratorCost { g with owned := n + 1 } 1
    ∧ getUpgradeCost { u with currentPurchases := n }
        ≤ getUpgradeCost { u with currentPurchases := n + 1 }
    ∧ (1 ≤ u.baseCost * u.costMultiplier ^ n * (u.costMultiplier - 1) →
        getUpgradeCost { u with currentPurchases := n }
          < getUpgradeCost { u with currentPurchases := n + 1 }) := by
  refine ⟨?_, ?_, ?_⟩
  · simp only [getGeneratorCost, Finset.sum_range_one, Nat.add_zero]
    have hp : g.costMultiplier ^ n < g.costMultiplier ^ (n + 1) :=
      pow_lt_pow_right₀ hgm (Nat.lt_succ_self n)
    nlinarith [hp, hgb]
  · rw [getUpgradeCost_eq, getUpgradeCost_eq]
    unfold stepCost
    have : u.baseCost * u.costMultiplier ^ n ≤ u.baseCost * u.costMultiplier ^ (n + 1) := by
      apply mul_le_mul_of_nonneg_left _ hub
      exact pow_le_pow_right₀ hum (Nat.le_succ n)
    exact_mod_cast Int.ceil_le_ceil this
  · intro hstep
    rw [getUpgradeCost_eq, getUpgradeCost_eq]
    unfold stepCost
    have hle : u.baseCost * u.costMultiplier ^ n + 1
        ≤ u.baseCost * u.costMultiplier ^ (n + 1) := by
      have : u.baseCost * u.costMultiplier ^ (n + 1)
          = u.baseCost * u.costMultiplier ^ n
            + u.baseCost * u.costMultiplier ^ n * (u.costMultiplier - 1) := by ring
      linarith
    have h1 : ⌈u.baseCost * u.costMultiplier ^ n⌉ + 1
        ≤ ⌈u.baseCost * u.costMultiplier ^ (n + 1)⌉ := by
      calc ⌈u.baseCost * u.costMultiplier ^ n⌉ + 1
          = ⌈u.baseCost * u.costMultiplier ^ n + 1⌉ := (Int.ceil_add_one _).symm
        _ ≤ ⌈u.baseCost * u.costMultiplier ^ (n + 1)⌉ := Int.ceil_le_ceil hle
    have : ⌈u.baseCost * u.costMultiplier ^ n⌉
        < ⌈u.baseCost * u.costMultiplier ^ (n + 1)⌉ := by omega
    exact_mod_cast this

section ClaimDecidable3

attribute [local semireducible] Rat.add Rat.mul Rat.inv Rat.sub

/-- Witness for C7: a generator with `baseCost = 100`,
`costMultiplier = 1.15` and the catalog upgrade parameters satisfy the
hypotheses, giving strict growth at `n = 0`. -/
theorem cost_monotone_witness :
    getGeneratorCost { gen115 with owned := 0 } 1
      < getGeneratorCost { gen115 with owned := 1 } 1 :=
  (cost_monotone gen115 wUpgrade 0 (by decide) (by decide) (by decide)
    (by decide)).1

end ClaimDecidable3

/-- Claim C5: on any state satisfying `canPrestige()`, `performPrestige()`
zeroes `currency`, `totalEarned`, every generator's `owned` and every
upgrade's `currentPurchases`, adds exactly `calculatePrestigeGain()` to the
prestige currency, increments `totalPrestiges` by one, and leaves
`engagement`, meta-prestige fields and achievements unchanged. -/
theorem performPrestige_reset (s : GameState) (h : canPrestige s = true) :
    (performPrestige s).currency = 0
    ∧ (performPrestige s).totalEarned = 0
    ∧ (∀ g ∈ (performPrestige s).idleGenerators, g.owned = 0)
    ∧ (∀ u ∈ (performPrestige s).upgrades, u.currentPurchases = 0)
    ∧ (performPrestige s).prestigePoints
        = s.prestigePoints + calculatePrestigeGain s
    ∧ (performPrestige s).totalPrestiges = s.totalPrestiges + 1
    ∧ (performPrestige s).engagement = s.engagement
    ∧ (performPrestige s).metaPrestigePoints = s.metaPrestigePoints
    ∧ (performPrestige s).totalMetaPrestiges = s.totalMetaPrestiges
    ∧ (performPrestige s).unlockedAchievements = s.unlockedAchievements := by
  unfold performPrestige
  rw [if_pos h]
  refine ⟨rfl, rfl, ?_, ?_, rfl, rfl, rfl, rfl, rfl, rfl⟩
  · intro g hg
    obtain ⟨x, _, rfl⟩ := List.mem_map.mp hg
    rfl
  · intro u hu
    obtain ⟨x, _, rfl⟩ := List.mem_map.mp hu
    rfl

section ClaimDecidable4

attribute [local semireducible] Rat.add Rat.mul Rat.inv Rat.sub

/-- Witness for C5: the state at the threshold prestiges to zeroed base
progress with one more prestige recorded. -/
theorem performPrestige_reset_witness :
    canPrestige prestige1000State = true
    ∧ (performPrestige prestige1000State).currency = 0
    ∧ (performPrestige prestige1000State).totalPrestiges
        = prestige1000State.totalPrestiges + 1 :=
  ⟨by decide, (performPrestige_reset prestige1000State (by decide)).1,
    (performPrestige_reset prestige1000State (by decide)).2.2.2.2.2.1⟩

end ClaimDecidable4

theorem find?_replaceFirstGenerator (gid : String) (f : Generator → Generator)
    (hf : ∀ g, (f g).id = g.id) :
    ∀ l : List Generator,
      (replaceFirstGenerator gid f l).find? (fun g => g.id == gid)
        = (l.find? (fun g => g.id == gid)).map f := by
  intro l
  induction l with
  | nil => rfl
  | cons g rest ih =>
    by_cases h : g.id = gid
    · have hb : (g.id == gid) = true := by simp [h]
      have hfb : ((f g).id == gid) = true := by simp [hf, h]
      simp [replaceFirstGenerator, List.find?_cons, hb, hfb]
    · have hb : (g.id == gid) = false := by simp [h]
      have hfb : ((f g).id == gid) = false := by simp [hf, h]
      simp [replaceFirstGenerator, List.find?_cons, hb, hfb, ih]

theorem purchaseStepCore_clickMultiplier (uid : String) (u : Upgrade) (s : GameState) :
    (purchaseStepCore uid u s).clickMultiplier
      = (applyEffect u.effect.app s).clickMultiplier := by
  unfold purchaseStepCore
  split <;> simp [applyEffect_currency_irrel]

theorem purchaseStepCore_idleMultiplier (uid : String) (u : Upgrade) (s : GameState) :
    (purchaseStepCore uid u s).idleMultiplier
      = (applyEffect u.effect.app s).idleMultiplier := by
  unfold purchaseStepCore
  split <;> simp [applyEffect_currency_irrel]

theorem purchaseStepCore_baseClickValue (uid : String) (u : Upgrade) (s : GameState) :
    (purchaseStepCore uid u s).baseClickValue
      = (applyEffect u.effect.app s).baseClickValue := by
  unfold purchaseStepCore
  split <;> simp [applyEffect_currency_irrel]

/-- Claim C1: every failing purchase (unknown id, locked entity,
unaffordable cost, or — for upgrades — already maxed, exactly the cases
`canAfford…` rejects) returns `false` and leaves the state bit-for-bit
unchanged; every successful purchase deducts exactly the quoted cost,
increments the purchased count by exactly the purchased amount, and applies
the upgrade's effect exactly once. -/
theorem purchase_atomicity (s : GameState) (gid uid : String) (amt : ℕ) :
    ((purchaseGenerator gid amt s).1 = false → (purchaseGenerator gid amt s).2 = s)
    ∧ ((purchaseGenerator gid amt s).1 = false ↔
        findGenerator gid s = none
        ∨ ∃ g, findGenerator gid s = some g ∧ canAffordGenerator g amt s = false)
    ∧ (∀ g, findGenerator gid s = some g → (purchaseGenerator gid amt s).1 = true →
        (purchaseGenerator gid amt s).2.currency = s.currency - getGeneratorCost g amt
        ∧ findGenerator gid (purchaseGenerator gid amt s).2
            = some { g with owned := g.owned + amt })
    ∧ ((purchaseUpgrade uid s).1 = false → (purchaseUpgrade uid s).2 = s)
    ∧ ((purchaseUpgrade uid s).1 = false ↔
        findUpgrade uid s = none
        ∨ ∃ u, findUpgrade uid s = some u ∧ canAffordUpgrade u s = false)
    ∧ (∀ u, findUpgrade uid s = some u → (purchaseUpgrade uid s).1 = true →
        (purchaseUpgrade uid s).2.currency = s.currency - getUpgradeCost u
        ∧ findUpgrade uid (purchaseUpgrade uid s).2
            = some { u with currentPurchases := u.currentPurchases + 1,
                            unlocked := true }
        ∧ (purchaseUpgrade uid s).2.clickMultiplier
            = (applyEffect u.effect.app s).clickMultiplier
        ∧ (purchaseUpgrade uid s).2.idleMultiplier
            = (applyEffect u.effect.app s).idleMultiplier
        ∧ (purchaseUpgrade uid s).2.baseClickValue
            = (applyEffect u.effect.app s).baseClickValue) := by
  refine ⟨?_, ?_, ?_, ?_, ?_, ?_⟩
  · cases hf : findGenerator gid s with
    | none => intro _; simp [purchaseGenerator, hf]
    | some g =>
      by_cases hc : canAffordGenerator g amt s = true
      · simp [purchaseGenerator, hf, hc]
      · intro _; simp [purchaseGenerator, hf, hc]
  · cases hf : findGenerator gid s with
    | none => simp [purchaseGenerator, hf]
    | some g =>
      by_cases hc : canAffordGenerator g amt s = true
      · simp [purchaseGenerator, hf, hc]
      · simp [purchaseGenerator, hf, hc]
  · intro g hg hsucc
    by_cases hc : canAffordGenerator g amt s = true
    · constructor
      · simp [purchaseGenerator, hg, hc, updateCurrency, sub_eq_add_neg]
      · simp only [purchaseGenerator, hg, hc, if_true]
        unfold findGenerator
        dsimp only
        rw [show (updateCurrency (-getGeneratorCost g amt) s).idleGenerators
              = s.idleGenerators from rfl]
        rw [find?_replaceFirstGenerator gid
          (fun w => { w with owned := w.owned + amt }) (fun _ => rfl)
          s.idleGenerators]
        rw [show s.idleGenerators.find? (fun w => w.id == gid)
              = findGenerator gid s from rfl, hg]
        rfl
    · exfalso
      simp [purchaseGenerator, hg, hc] at hsucc
  · cases hf : findUpgrade uid s with
    | none => intro _; simp [purchaseUpgrade, hf]
    | some u =>
      by_cases hc : canAffordUpgrade u s = true
      · simp [purchaseUpgrade, hf, hc]
      · intro _; simp [purchaseUpgrade, hf, hc]
  · cases hf : findUpgrade uid s with
    | none => simp [purchaseUpgrade, hf]
    | some u =>
      by_cases hc : canAffordUpgrade u s = true
      · simp [purchaseUpgrade, hf, hc]
      · simp [purchaseUpgrade, hf, hc]
  · intro u hu hsucc
    by_cases hc : canAffordUpgrade u s = true
    · have hcur : (purchaseUpgrade uid s).2.currency = s.currency - getUpgradeCost u := by
        simp [purchaseUpgrade, hu, hc, updateUpgradeUnlocks_currency,
          purchaseStepCore_currency]
      have hfind : findUpgrade uid (purchaseUpgrade uid s).2
          = some { u with currentPurchases := u.currentPurchases + 1,
                          unlocked := true } := by
        simp only [purchaseUpgrade, hu, hc, if_true]
        rw [findUpgrade_updateUpgradeUnlocks]
        have h5 : findUpgrade uid
            { purchaseStepCore uid u s with
              upgrades := replaceFirstUpgrade uid
                (fun w => { w with unlocked := true })
                (purchaseStepCore uid u s).upgrades }
            = some { u with currentPurchases := u.currentPurchases + 1,
                            unlocked := true } := by
          unfold findUpgrade
          dsimp only
          rw [find?_replaceFirstUpgrade uid (fun w => { w with unlocked := true })
            (fun _ => rfl) (purchaseStepCore uid u s).upgrades]
          rw [show (purchaseStepCore uid u s).upgrades.find? (fun w => w.id == uid)
                = findUpgrade uid (purchaseStepCore uid u s) from rfl]
          rw [findUpgrade_purchaseStepCore, hu]
          rfl
        rw [h5]
        rfl
      refine ⟨hcur, hfind, ?_, ?_, ?_⟩
      · simp [purchaseUpgrade, hu, hc, purchaseStepCore_clickMultiplier,
          updateUpgradeUnlocks]
      · simp [purchaseUpgrade, hu, hc, purchaseStepCore_idleMultiplier,
          updateUpgradeUnlocks]
      · simp [purchaseUpgrade, hu, hc, purchaseStepCore_baseClickValue,
          updateUpgradeUnlocks]
    · exfalso
      simp [purchaseUpgrade, hu, hc] at hsucc

section ClaimDecidable5

attribute [local semireducible] Rat.add Rat.mul Rat.inv Rat.sub

/-- Witness for C1: an unknown-id generator purchase leaves the state
unchanged, and a successful upgrade purchase deducts exactly the quoted
(ceiled) cost. -/
theorem purchase_atomicity_witness :
    (purchaseGenerator "nope" 1 wState).2 = wState
    ∧ (purchaseUpgrade "u1" wState).2.currency
        = wState.currency - getUpgradeCost wUpgrade :=
  ⟨(purchase_atomicity wState "nope" "u1" 1).1 (by decide),
   ((purchase_atomicity wState "nope" "u1" 1).2.2.2.2.2 wUpgrade (by decide)
      (by decide)).1⟩

end ClaimDecidable5

/-! ## Bot-strategy lemmas -/

theorem bestEff_cons (d : Decision) (l : List Decision) :
    bestEff (d :: l) = max d.eff (bestEff l) := rfl

theorem le_bestEff (x : Decision) (l : List Decision) (hx : x ∈ l) :
    x.eff ≤ bestEff l := by
  induction l with
  | nil => cases hx
  | cons d rest ih =>
    rw [bestEff_cons]
    rcases List.mem_cons.mp hx with rfl | hx
    · exact le_max_left _ _
    · exact le_trans (ih hx) (le_max_right _ _)

theorem bestEff_le (l : List Decision) (c : ℚ) (h0 : 0 ≤ c)
    (h : ∀ x ∈ l, x.eff ≤ c) : bestEff l ≤ c := by
  induction l with
  | nil => exact h0
  | cons d rest ih =>
    rw [bestEff_cons]
    exact max_le (h d (List.mem_cons_self d rest))
      (ih fun x hx => h x (List.mem_cons_of_mem d hx))

theorem bestEff_perm {l₁ l₂ : List Decision} (h : l₁.Perm l₂) :
    bestEff l₁ = bestEff l₂ := by
  induction h with
  | nil => rfl
  | cons x _ ih => rw [bestEff_cons, bestEff_cons, ih]
  | swap x y l =>
    rw [bestEff_cons, bestEff_cons, bestEff_cons, bestEff_cons, max_left_comm]
  | trans _ _ ih₁ ih₂ => rw [ih₁, ih₂]

theorem insertDesc_perm (d : Decision) (l : List Decision) :
    (insertDesc d l).Perm (d :: l) := by
  induction l with
  | nil => exact List.Perm.refl _
  | cons e rest ih =>
    unfold insertDesc
    split
    · exact List.Perm.refl _
    · exact List.Perm.trans (List.Perm.cons e ih) (List.Perm.swap d e rest)

theorem sortDesc_perm (l : List Decision) : (sortDesc l).Perm l := by
  induction l with
  | nil => exact List.Perm.refl _
  | cons d rest ih =>
    exact List.Perm.trans (insertDesc_perm d (sortDesc rest)) (List.Perm.cons d ih)

theorem mem_insertDesc {x d : Decision} {l : List Decision} :
    x ∈ insertDesc d l ↔ x = d ∨ x ∈ l := by
  rw [(insertDesc_perm d l).mem_iff, List.mem_cons]

theorem pairwise_insertDesc (d : Decision) (l : List Decision)
    (h : l.Pairwise (fun a b => b.eff ≤ a.eff)) :
    (insertDesc d l).Pairwise (fun a b => b.eff ≤ a.eff) := by
  induction l with
  | nil => simp [insertDesc]
  | cons e rest ih =>
    rcases List.pairwise_cons.mp h with ⟨he, hrest⟩
    unfold insertDesc
    split
    · rename_i hle
      refine List.pairwise_cons.mpr ⟨?_, h⟩
      intro x hx
      rcases List.mem_cons.mp hx with rfl | hx
      · exact hle
      · exact le_trans (he x hx) hle
    · rename_i hgt
      refine List.pairwise_cons.mpr ⟨?_, ih hrest⟩
      intro x hx
      rcases mem_insertDesc.mp hx with rfl | hx
      · exact le_of_lt (lt_of_not_ge hgt)
      · exact he x hx

theorem pairwise_sortDesc (l : List Decision) :
    (sortDesc l).Pairwise (fun a b => b.eff ≤ a.eff) := by
  induction l with
  | nil => exact List.Pairwise.nil
  | cons d rest ih => exact pairwise_insertDesc d _ ih

theorem collectDecisions_pos (rate : ℚ) (s : GameState) :
    ∀ d ∈ collectDecisions rate s, 0 < d.eff := by
  intro d hd
  unfold collectDecisions at hd
  have := (List.mem_filter.mp hd).2
  simpa using this

theorem evaluateGenerator_affordable (g : Generator) (s : GameState)
    (h : (evaluateGenerator g s).kind ≠ DKind.skip) :
    (evaluateGenerator g s).cost ≤ s.currency := by
  by_cases hc : calculateGeneratorCost g ≤ s.currency
  · simp [evaluateGenerator, hc]
  · exfalso
    apply h
    simp [evaluateGenerator, hc]

theorem evaluateUpgrade_affordable (rate : ℚ) (u : Upgrade) (s : GameState)
    (h : (evaluateUpgrade rate u s).kind ≠ DKind.skip) :
    (evaluateUpgrade rate u s).cost ≤ s.currency := by
  by_cases hc : calculateUpgradeCost u ≤ s.currency
  · simp [evaluateUpgrade, hc]
  · exfalso
    apply h
    simp [evaluateUpgrade, hc]

theorem collectDecisions_cost (rate : ℚ) (s : GameState) :
    ∀ d ∈ collectDecisions rate s, d.kind ≠ DKind.skip → d.cost ≤ s.currency := by
  intro d hd hk
  unfold collectDecisions at hd
  rcases List.mem_append.mp (List.mem_filter.mp hd).1 with hg | hu
  · obtain ⟨g, _, rfl⟩ := List.mem_map.mp hg
    exact evaluateGenerator_affordable g s hk
  · obtain ⟨u, _, rfl⟩ := List.mem_map.mp hu
    exact evaluateUpgrade_affordable rate u s hk

theorem decideNextPurchase_mem (rate : ℚ) (s : GameState) :
    (decideNextPurchase rate s).kind = DKind.skip
    ∧ decideNextPurchase rate s = { kind := DKind.skip }
    ∨ ((decideNextPurchase rate s) ∈ collectDecisions rate s
        ∧ (decideNextPurchase rate s).kind ≠ DKind.skip) := by
  cases hS : sortDesc (collectDecisions rate s) with
  | nil =>
    have hred : decideNextPurchase rate s = { kind := DKind.skip } := by
      unfold decideNextPurchase
      dsimp only
      rw [hS]
      rfl
    left
    exact ⟨by rw [hred], hred⟩
  | cons best rest =>
    have hSD := sortDesc_perm (collectDecisions rate s)
    rw [hS] at hSD
    cases hA : (best :: rest).filter (fun d => !(d.kind == DKind.skip)) with
    | nil =>
      have hred : decideNextPurchase rate s = { kind := DKind.skip } := by
        unfold decideNextPurchase
        dsimp only
        rw [hS, hA]
      left
      exact ⟨by rw [hred], hred⟩
    | cons bA restA =>
      have hbA : bA ∈ collectDecisions rate s ∧ (!(bA.kind == DKind.skip)) = true := by
        have hmem : bA ∈ (best :: rest).filter (fun d => !(d.kind == DKind.skip)) := by
          rw [hA]; exact List.mem_cons_self _ _
        have h2 := List.mem_filter.mp hmem
        exact ⟨hSD.subset h2.1, h2.2⟩
      by_cases hbk : best.kind = DKind.skip
      · have hb : (!(best.kind == DKind.skip)) = false := by simp [hbk]
        by_cases hth : best.eff * (1 / 2) ≤ bA.eff
        · have hred : decideNextPurchase rate s = bA := by
            unfold decideNextPurchase
            dsimp only
            rw [hS, hA]
            show (if (!(best.kind == DKind.skip)) = true then best
                  else if best.eff * (1 / 2) ≤ bA.eff then bA
                  else ({ kind := DKind.skip } : Decision)) = bA
            rw [hb]
            simp only [Bool.false_eq_true, if_false]
            rw [if_pos hth]
          right
          rw [hred]
          exact ⟨hbA.1, by simpa using hbA.2⟩
        · have hred : decideNextPurchase rate s = { kind := DKind.skip } := by
            unfold decideNextPurchase
            dsimp only
            rw [hS, hA]
            show (if (!(best.kind == DKind.skip)) = true then best
                  else if best.eff * (1 / 2) ≤ bA.eff then bA
                  else ({ kind := DKind.skip } : Decision)) = { kind := DKind.skip }
            rw [hb]
            simp only [Bool.false_eq_true, if_false]
            rw [if_neg hth]
          left
          exact ⟨by rw [hred], hred⟩
      · have hb : (!(best.kind == DKind.skip)) = true := by simp [hbk]
        have hred : decideNextPurchase rate s = best := by
          unfold decideNextPurchase
          dsimp only
          rw [hS, hA]
          show (if (!(best.kind == DKind.skip)) = true then best
                else if best.eff * (1 / 2) ≤ bA.eff then bA
                else ({ kind := DKind.skip } : Decision)) = best
          rw [hb]
          simp
        right
        rw [hred]
        exact ⟨hSD.subset (List.mem_cons_self _ _), hbk⟩

/-- Claim C10: whenever `decideNextPurchase` returns a decision whose kind
is `generator` or `upgrade` (not `none`), the quoted cost is within the
state's current currency: the strategy never selects an unaffordable
purchase. -/
theorem decideNextPurchase_affordable (rate : ℚ) (s : GameState)
    (h : (decideNextPurchase rate s).kind ≠ DKind.skip) :
    (decideNextPurchase rate s).cost ≤ s.currency := by
  rcases decideNextPurchase_mem rate s with ⟨hk, _⟩ | ⟨hmem, _⟩
  · exact absurd hk h
  · exact collectDecisions_cost rate s _ hmem h

section ClaimDecidable6

attribute [local semireducible] Rat.add Rat.mul Rat.inv Rat.sub

/-- Witness for C10: in the two-generator state the strategy picks the
affordable option `B`, whose cost 20 is within the 50 currency. -/
theorem decideNextPurchase_affordable_witness :
    (decideNextPurchase 0 botState).cost ≤ botState.currency :=
  decideNextPurchase_affordable 0 botState (by decide)

end ClaimDecidable6

/-- Claim C9: with at least one unlocked positive-efficiency option
collected, the strategy chooses an affordable option of maximal affordable
efficiency whenever that efficiency reaches half of the overall best
efficiency (in particular whenever the best option is itself affordable,
and in the boundary case of exactly half), and decides the saving-up `none`
decision exactly when every affordable option falls strictly below the
half threshold. -/
theorem decideNextPurchase_spec (rate : ℚ) (s : GameState)
    (hD : collectDecisions rate s ≠ []) :
    (bestEff (collectDecisions rate s)
        ≤ 2 * bestEff (affordables (collectDecisions rate s)) →
      (decideNextPurchase rate s).kind ≠ DKind.skip
      ∧ (decideNextPurchase rate s).eff
          = bestEff (affordables (collectDecisions rate s)))
    ∧ (2 * bestEff (affordables (collectDecisions rate s))
        < bestEff (collectDecisions rate s) →
      (decideNextPurchase rate s).kind = DKind.skip) := by
  cases hS : sortDesc (collectDecisions rate s) with
  | nil =>
    exfalso
    have hSD := sortDesc_perm (collectDecisions rate s)
    rw [hS] at hSD
    exact hD (hSD.symm.eq_nil)
  | cons best rest =>
    have hSD := sortDesc_perm (collectDecisions rate s)
    rw [hS] at hSD
    have hpairS : (best :: rest).Pairwise (fun a b => b.eff ≤ a.eff) := by
      have := pairwise_sortDesc (collectDecisions rate s)
      rwa [hS] at this
    have hbestD : best ∈ collectDecisions rate s :=
      hSD.subset (List.mem_cons_self _ _)
    have hbestp : 0 < best.eff := collectDecisions_pos rate s best hbestD
    have hSmax : ∀ x ∈ best :: rest, x.eff ≤ best.eff := by
      intro x hx
      rcases List.mem_cons.mp hx with rfl | hx
      · exact le_refl _
      · exact (List.pairwise_cons.mp hpairS).1 x hx
    have hbeD : best.eff = bestEff (collectDecisions rate s) := by
      refine le_antisymm (le_bestEff best _ hbestD) ?_
      refine bestEff_le _ _ (le_of_lt hbestp) ?_
      intro x hx
      exact hSmax x (hSD.mem_iff.mpr hx)
    have hfilt : ((best :: rest).filter (fun d => !(d.kind == DKind.skip))).Perm
        (affordables (collectDecisions rate s)) := by
      unfold affordables
      exact hSD.filter _
    cases hA : (best :: rest).filter (fun d => !(d.kind == DKind.skip)) with
    | nil =>
      have hAff : affordables (collectDecisions rate s) = [] := by
        rw [hA] at hfilt
        exact hfilt.symm.eq_nil
      have hred : decideNextPurchase rate s = { kind := DKind.skip } := by
        unfold decideNextPurchase
        dsimp only
        rw [hS, hA]
      constructor
      · intro hant
        exfalso
        rw [hAff] at hant
        rw [← hbeD] at hant
        simp only [bestEff] at hant
        norm_num at hant
        linarith
      · intro _
        rw [hred]
    | cons bA restA =>
      rw [hA] at hfilt
      have hpairA : (bA :: restA).Pairwise (fun a b => b.eff ≤ a.eff) := by
        have := hpairS.filter (fun d => !(d.kind == DKind.skip))
        rwa [hA] at this
      have hbAD : bA ∈ affordables (collectDecisions rate s) :=
        hfilt.subset (List.mem_cons_self _ _)
      have hbAinD : bA ∈ collectDecisions rate s :=
        List.mem_of_mem_filter hbAD
      have hbAp : 0 < bA.eff := collectDecisions_pos rate s bA hbAinD
      have hbAkind : (!(bA.kind == DKind.skip)) = true := by
        have hmem : bA ∈ (best :: rest).filter (fun d => !(d.kind == DKind.skip)) := by
          rw [hA]; exact List.mem_cons_self _ _
        exact (List.mem_filter.mp hmem).2
      have hAmax : ∀ x ∈ bA :: restA, x.eff ≤ bA.eff := by
        intro x hx
        rcases List.mem_cons.mp hx with rfl | hx
        · exact le_refl _
        · exact (List.pairwise_cons.mp hpairA).1 x hx
      have hbAe : bA.eff = bestEff (affordables (collectDecisions rate s)) := by
        refine le_antisymm (le_bestEff bA _ hbAD) ?_
        refine bestEff_le _ _ (le_of_lt hbAp) ?_
        intro x hx
        exact hAmax x (hfilt.mem_iff.mpr hx)
      have hbAinS : bA ∈ best :: rest := by
        apply List.mem_of_mem_filter (p := fun d => !(d.kind == DKind.skip))
        rw [hA]
        exact List.mem_cons_self _ _
      have hbAle : bA.eff ≤ best.eff := hSmax bA hbAinS
      by_cases hbk : best.kind = DKind.skip
      · have hb : (!(best.kind == DKind.skip)) = false := by simp [hbk]
        by_cases hth : best.eff * (1 / 2) ≤ bA.eff
        · have hred : decideNextPurchase rate s = bA := by
            unfold decideNextPurchase
            dsimp only
            rw [hS, hA]
            show (if (!(best.kind == DKind.skip)) = true then best
                  else if best.eff * (1 / 2) ≤ bA.eff then bA
                  else ({ kind := DKind.skip } : Decision)) = bA
            rw [hb]
            simp only [Bool.false_eq_true, if_false]
            rw [if_pos hth]
          constructor
          · intro _
            rw [hred]
            exact ⟨by simpa using hbAkind, hbAe⟩
          · intro habs
            exfalso
            rw [← hbAe, ← hbeD] at habs
            linarith
        · have hred : decideNextPurchase rate s = { kind := DKind.skip } := by
            unfold decideNextPurchase
            dsimp only
            rw [hS, hA]
            show (if (!(best.kind == DKind.skip)) = true then best
                  else if best.eff * (1 / 2) ≤ bA.eff then bA
                  else ({ kind := DKind.skip } : Decision)) = { kind := DKind.skip }
            rw [hb]
            simp only [Bool.false_eq_true, if_false]
            rw [if_neg hth]
          constructor
          · intro hant
            exfalso
            rw [← hbAe, ← hbeD] at hant
            have : best.eff * (1 / 2) ≤ bA.eff := by linarith
            exact hth this
          · intro _
            rw [hred]
      · have hb : (!(best.kind == DKind.skip)) = true := by simp [hbk]
        have hred : decideNextPurchase rate s = best := by
          unfold decideNextPurchase
          dsimp only
          rw [hS, hA]
          show (if (!(best.kind == DKind.skip)) = true then best
                else if best.eff * (1 / 2) ≤ bA.eff then bA
                else ({ kind := DKind.skip } : Decision)) = best
          rw [hb]
          simp
        have hbestA : best ∈ affordables (collectDecisions rate s) := by
          unfold affordables
          exact List.mem_filter.mpr ⟨hbestD, by simp [hbk]⟩
        have hbeA : best.eff = bestEff (affordables (collectDecisions rate s)) := by
          refine le_antisymm (le_bestEff best _ hbestA) ?_
          refine bestEff_le _ _ (le_of_lt hbestp) ?_
          intro x hx
          exact hAmax x (hfilt.mem_iff.mpr hx) |>.trans (le_of_eq rfl) |>.trans hbAle
        constructor
        · intro _
          rw [hred]
          exact ⟨hbk, hbeA⟩
        · intro habs
          exfalso
          rw [← hbeA, ← hbeD] at habs
          linarith

section ClaimDecidable7

attribute [local semireducible] Rat.add Rat.mul Rat.inv Rat.sub

/-- Witness for C9, realising the claim's boundary scenario: option `A`
(efficiency 1/10) is unaffordable, option `B` (efficiency 1/20, exactly
half) is affordable, and the strategy chooses the affordable maximal
option rather than saving up. -/
theorem decideNextPurchase_spec_witness :
    (decideNextPurchase 0 botState).kind ≠ DKind.skip
    ∧ (decideNextPurchase 0 botState).eff
        = bestEff (affordables (collectDecisions 0 botState)) :=
  (decideNextPurchase_spec 0 botState (by decide)).1 (by decide)

end ClaimDecidable7

/-! ## Lemmas for the max-purchase equivalence -/

theorem costSum_zero (b m : ℚ) (p : ℕ) : costSum b m p 0 = 0 := by
  simp [costSum]

theorem costSum_succ (b m : ℚ) (p n : ℕ) :
    costSum b m p (n + 1) = stepCost b m p + costSum b m (p + 1) n := by
  unfold costSum
  rw [Finset.sum_range_succ']
  have h1 : ∀ i, stepCost b m (p + (i + 1)) = stepCost b m ((p + 1) + i) := by
    intro i
    rw [show p + (i + 1) = (p + 1) + i by omega]
  rw [Finset.sum_congr rfl (fun i _ => h1 i), Nat.add_zero]
  exact add_comm _ _

theorem maxAffordableAux_le (b m C : ℚ) :
    ∀ (rem p : ℕ) (tot : ℚ), maxAffordableAux b m C p rem tot ≤ rem := by
  intro rem
  induction rem with
  | zero => intro p tot; exact le_refl _
  | succ k ih =>
    intro p tot
    unfold maxAffordableAux
    dsimp only
    split
    · have := ih (p + 1) (tot + stepCost b m p)
      omega
    · omega

theorem maxAffordableAux_prefix (b m C : ℚ) :
    ∀ (rem p : ℕ) (tot : ℚ) (k : ℕ),
      k < maxAffordableAux b m C p rem tot →
      tot + costSum b m p k + stepCost b m (p + k) ≤ C := by
  intro rem
  induction rem with
  | zero => intro p tot k hk; simp [maxAffordableAux] at hk
  | succ r ih =>
    intro p tot k hk
    unfold maxAffordableAux at hk
    dsimp only at hk
    by_cases hc : tot + stepCost b m p ≤ C
    · rw [if_pos hc] at hk
      cases k with
      | zero => simpa [costSum_zero] using hc
      | succ j =>
        have hj : j < maxAffordableAux b m C (p + 1) r (tot + stepCost b m p) := by
          omega
        have := ih (p + 1) (tot + stepCost b m p) j hj
        rw [costSum_succ]
        rw [show p + (j + 1) = (p + 1) + j by omega]
        linarith
    · rw [if_neg hc] at hk
      omega

theorem purchaseMaxLoop_spec (uid : String) :
    ∀ (n : ℕ) (s : GameState) (u : Upgrade),
      findUpgrade uid s = some u →
      (∀ k, k < n → costSum u.baseCost u.costMultiplier u.currentPurchases k
          + stepCost u.baseCost u.costMultiplier (u.currentPurchases + k)
          ≤ s.currency) →
      (purchaseMaxLoop uid n s).1 = n
      ∧ (purchaseMaxLoop uid n s).2.currency
          = s.currency - costSum u.baseCost u.costMultiplier u.currentPurchases n
      ∧ findUpgrade uid (purchaseMaxLoop uid n s).2
          = some { u with currentPurchases := u.currentPurchases + n } := by
  intro n
  induction n with
  | zero =>
    intro s u hfind _
    refine ⟨rfl, by simp [purchaseMaxLoop, costSum_zero], ?_⟩
    simpa [purchaseMaxLoop] using hfind
  | succ n ih =>
    intro s u hfind hpre
    have hc : getUpgradeCost u ≤ s.currency := by
      have h0 := hpre 0 (Nat.succ_pos n)
      rw [getUpgradeCost_eq]
      simpa [costSum_zero] using h0
    have hcd : decide (getUpgradeCost u ≤ s.currency) = true := decide_eq_true hc
    have hfind1 : findUpgrade uid (purchaseStepCore uid u s)
        = some { u with currentPurchases := u.currentPurchases + 1 } := by
      rw [findUpgrade_purchaseStepCore, hfind]
      rfl
    have hcur1 : (purchaseStepCore uid u s).currency
        = s.currency - stepCost u.baseCost u.costMultiplier u.currentPurchases := by
      rw [purchaseStepCore_currency, getUpgradeCost_eq]
    have hpre1 : ∀ k, k < n →
        costSum u.baseCost u.costMultiplier (u.currentPurchases + 1) k
          + stepCost u.baseCost u.costMultiplier ((u.currentPurchases + 1) + k)
          ≤ (purchaseStepCore uid u s).currency := by
      intro k hk
      have h1 := hpre (k + 1) (by omega)
      rw [costSum_succ] at h1
      rw [show u.currentPurchases + (k + 1) = (u.currentPurchases + 1) + k by omega]
        at h1
      rw [hcur1]
      linarith
    have hIT := ih (purchaseStepCore uid u s)
      { u with currentPurchases := u.currentPurchases + 1 } hfind1 hpre1
    have hstep : purchaseMaxLoop uid (n + 1) s
        = ((purchaseMaxLoop uid n (purchaseStepCore uid u s)).1 + 1,
           (purchaseMaxLoop uid n (purchaseStepCore uid u s)).2) := by
      rw [purchaseMaxLoop]
      rw [hfind]
      dsimp only
      rw [hcd]
      rfl
    rw [hstep]
    refine ⟨by rw [hIT.1], ?_, ?_⟩
    · rw [hIT.2.1]
      dsimp only
      rw [hcur1, costSum_succ]
      ring
    · rw [hIT.2.2]
      dsimp only
      rw [show (u.currentPurchases + 1) + n = u.currentPurchases + (n + 1) by omega]

theorem purchaseUpgrade_success_state (uid : String) (s : GameState) (u : Upgrade)
    (hfind : findUpgrade uid s = some u) (hcan : canAffordUpgrade u s = true) :
    (purchaseUpgrade uid s).1 = true
    ∧ (purchaseUpgrade uid s).2.currency = s.currency - getUpgradeCost u
    ∧ findUpgrade uid (purchaseUpgrade uid s).2
        = some { u with currentPurchases := u.currentPurchases + 1,
                        unlocked := true } := by
  refine ⟨by simp [purchaseUpgrade, hfind, hcan], ?_, ?_⟩
  · simp [purchaseUpgrade, hfind, hcan, updateUpgradeUnlocks_currency,
      purchaseStepCore_currency]
  · simp only [purchaseUpgrade, hfind, hcan, if_true]
    rw [findUpgrade_updateUpgradeUnlocks]
    have h5 : findUpgrade uid
        { purchaseStepCore uid u s with
          upgrades := replaceFirstUpgrade uid
            (fun w => { w with unlocked := true })
            (purchaseStepCore uid u s).upgrades }
        = some { u with currentPurchases := u.currentPurchases + 1,
                        unlocked := true } := by
      unfold findUpgrade
      dsimp only
      rw [find?_replaceFirstUpgrade uid (fun w => { w with unlocked := true })
        (fun _ => rfl) (purchaseStepCore uid u s).upgrades]
      rw [show (purchaseStepCore uid u s).upgrades.find? (fun w => w.id == uid)
            = findUpgrade uid (purchaseStepCore uid u s) from rfl]
      rw [findUpgrade_purchaseStepCore, hfind]
      rfl
    rw [h5]
    rfl

theorem iteratePurchase_spec (uid : String) :
    ∀ (n : ℕ) (s : GameState) (u : Upgrade),
      findUpgrade uid s = some u →
      isUpgradeUnlocked u s = true →
      u.currentPurchases + n ≤ u.maxPurchases →
      (∀ k, k < n → costSum u.baseCost u.costMultiplier u.currentPurchases k
          + stepCost u.baseCost u.costMultiplier (u.currentPurchases + k)
          ≤ s.currency) →
      (iteratePurchase uid n s).currency
          = s.currency - costSum u.baseCost u.costMultiplier u.currentPurchases n
      ∧ ((findUpgrade uid (iteratePurchase uid n s)).map Upgrade.currentPurchases)
          = some (u.currentPurchases + n) := by
  intro n
  induction n with
  | zero =>
    intro s u hfind _ _ _
    refine ⟨by simp [iteratePurchase, costSum_zero], ?_⟩
    simp [iteratePurchase, hfind]
  | succ n ih =>
    intro s u hfind hunlock hmax hpre
    have hc : getUpgradeCost u ≤ s.currency := by
      have h0 := hpre 0 (Nat.succ_pos n)
      rw [getUpgradeCost_eq]
      simpa [costSum_zero] using h0
    have hcan : canAffordUpgrade u s = true := by
      unfold canAffordUpgrade
      rw [if_neg (by omega), if_neg (by simp [hunlock])]
      exact decide_eq_true hc
    have hsucc := purchaseUpgrade_success_state uid s u hfind hcan
    have hfind1 := hsucc.2.2
    have hcur1 : (purchaseUpgrade uid s).2.currency
        = s.currency - stepCost u.baseCost u.costMultiplier u.currentPurchases := by
      rw [hsucc.2.1, getUpgradeCost_eq]
    have hunlock1 : isUpgradeUnlocked
        { u with currentPurchases := u.currentPurchases + 1, unlocked := true }
        (purchaseUpgrade uid s).2 = true := by
      unfold isUpgradeUnlocked
      rfl
    have hmax1 : (u.currentPurchases + 1) + n ≤ u.maxPurchases := by omega
    have hpre1 : ∀ k, k < n →
        costSum u.baseCost u.costMultiplier (u.currentPurchases + 1) k
          + stepCost u.baseCost u.costMultiplier ((u.currentPurchases + 1) + k)
          ≤ (purchaseUpgrade uid s).2.currency := by
      intro k hk
      have h1 := hpre (k + 1) (by omega)
      rw [costSum_succ] at h1
      rw [show u.currentPurchases + (k + 1) = (u.currentPurchases + 1) + k by omega]
        at h1
      rw [hcur1]
      linarith
    have hIT := ih (purchaseUpgrade uid s).2
      { u with currentPurchases := u.currentPurchases + 1, unlocked := true }
      hfind1 hunlock1 hmax1 hpre1
    have hstep : iteratePurchase uid (n + 1) s
        = iteratePurchase uid n (purchaseUpgrade uid s).2 := rfl
    rw [hstep]
    refine ⟨?_, ?_⟩
    · rw [hIT.1]
      dsimp only
      rw [hcur1, costSum_succ]
      ring
    · rw [hIT.2]
      dsimp only
      rw [show (u.currentPurchases + 1) + n = u.currentPurchases + (n + 1) by omega]

/-- Claim C8: buying the maximum affordable number `N` of units of an
upgrade in one `purchaseMaxUpgrades` call makes exactly `N` purchases and
produces the same final currency (hence charges the same total cost) and
the same final purchase count as calling the single-unit `purchaseUpgrade`
`N` times in succession. -/
theorem purchaseMax_equiv (uid : String) (s : GameState) :
    (purchaseMaxUpgrades uid s).1 = maxAffordableCount uid s
    ∧ (purchaseMaxUpgrades uid s).2.currency
        = (iteratePurchase uid (maxAffordableCount uid s) s).currency
    ∧ ((findUpgrade uid (purchaseMaxUpgrades uid s).2).map Upgrade.currentPurchases)
        = ((findUpgrade uid (iteratePurchase uid (maxAffordableCount uid s) s)).map
            Upgrade.currentPurchases) := by
  cases hf : findUpgrade uid s with
  | none =>
    have hN : maxAffordableCount uid s = 0 := by
      unfold maxAffordableCount
      rw [hf]
    rw [hN]
    simp [purchaseMaxUpgrades, iteratePurchase, hf]
  | some u =>
    have hN : maxAffordableCount uid s = getMaxAffordableUpgrades u s := by
      unfold maxAffordableCount
      rw [hf]
    by_cases hz : getMaxAffordableUpgrades u s = 0
    · rw [hN, hz]
      simp [purchaseMaxUpgrades, iteratePurchase, hf, hz]
    · have hunlock : isUpgradeUnlocked u s = true := by
        by_contra hn
        apply hz
        unfold getMaxAffordableUpgrades
        rw [if_pos (by simp [Bool.not_eq_true] at hn; simp [hn])]
      have hNdef : getMaxAffordableUpgrades u s
          = maxAffordableAux u.baseCost u.costMultiplier s.currency
              u.currentPurchases (u.maxPurchases - u.currentPurchases) 0 := by
        unfold getMaxAffordableUpgrades
        rw [if_neg (by simp [hunlock])]
      have hle : getMaxAffordableUpgrades u s
          ≤ u.maxPurchases - u.currentPurchases := by
        rw [hNdef]
        exact maxAffordableAux_le _ _ _ _ _ _
      have hmaxP : u.currentPurchases + getMaxAffordableUpgrades u s
          ≤ u.maxPurchases := by omega
      have hpre : ∀ k, k < getMaxAffordableUpgrades u s →
          costSum u.baseCost u.costMultiplier u.currentPurchases k
            + stepCost u.baseCost u.costMultiplier (u.currentPurchases + k)
            ≤ s.currency := by
        intro k hk
        rw [hNdef] at hk
        have := maxAffordableAux_prefix u.baseCost u.costMultiplier s.currency
          (u.maxPurchases - u.currentPurchases) u.currentPurchases 0 k hk
        linarith
      have hloop := purchaseMaxLoop_spec uid (getMaxAffordableUpgrades u s) s u hf hpre
      have hiter := iteratePurchase_spec uid (getMaxAffordableUpgrades u s) s u hf
        hunlock hmaxP hpre
      have hwrap : purchaseMaxUpgrades uid s
          = ((purchaseMaxLoop uid (getMaxAffordableUpgrades u s) s).1,
             updateUpgradeUnlocks
               { (purchaseMaxLoop uid (getMaxAffordableUpgrades u s) s).2 with
                 upgrades := replaceFirstUpgrade uid
                   (fun w => { w with unlocked := true })
                   (purchaseMaxLoop uid (getMaxAffordableUpgrades u s) s).2.upgrades }) := by
        unfold purchaseMaxUpgrades
        rw [hf]
        dsimp only
        rw [if_neg hz]
      have hfinalfind : findUpgrade uid (purchaseMaxUpgrades uid s).2
          = some { u with
              currentPurchases := u.currentPurchases + getMaxAffordableUpgrades u s,
              unlocked := true } := by
        rw [hwrap]
        dsimp only
        rw [findUpgrade_updateUpgradeUnlocks]
        have h5 : findUpgrade uid
            { (purchaseMaxLoop uid (getMaxAffordableUpgrades u s) s).2 with
              upgrades := replaceFirstUpgrade uid
                (fun w => { w with unlocked := true })
                (purchaseMaxLoop uid (getMaxAffordableUpgrades u s) s).2.upgrades }
            = some { u with
                currentPurchases := u.currentPurchases + getMaxAffordableUpgrades u s,
                unlocked := true } := by
          unfold findUpgrade
          dsimp only
          rw [find?_replaceFirstUpgrade uid (fun w => { w with unlocked := true })
            (fun _ => rfl)
            (purchaseMaxLoop uid (getMaxAffordableUpgrades u s) s).2.upgrades]
          rw [show (purchaseMaxLoop uid (getMaxAffordableUpgrades u s) s).2.upgrades.find?
                (fun w => w.id == uid)
                = findUpgrade uid (purchaseMaxLoop uid (getMaxAffordableUpgrades u s) s).2
              from rfl]
          rw [hloop.2.2]
          rfl
        rw [h5]
        rfl
      refine ⟨?_, ?_, ?_⟩
      · rw [hwrap]
        dsimp only
        rw [hloop.1, hN]
      · rw [hwrap]
        dsimp only
        rw [updateUpgradeUnlocks_currency]
        rw [show ({ (purchaseMaxLoop uid (getMaxAffordableUpgrades u s) s).2 with
            upgrades := replaceFirstUpgrade uid
              (fun w => { w with unlocked := true })
              (purchaseMaxLoop uid (getMaxAffordableUpgrades u s) s).2.upgrades
            } : GameState).currency
            = (purchaseMaxLoop uid (getMaxAffordableUpgrades u s) s).2.currency from rfl]
        rw [hloop.2.1, hN, hiter.1]
      · rw [hfinalfind, hN, hiter.2]
        rfl

end Game
